import Mathlib

/-!
Shallow embedding of the `pse-data-scraper` repository (scraper, downloader,
combiner, models and utils modules) together with proofs about the claims of
its specification.  Python strings are embedded as `List Char` (a Python `str`
is a sequence of code points); dictionaries are embedded as association lists;
stateful code (HTTP, cache files, output files) is embedded as explicit state
passing over a network oracle.
-/

/-! ## Character helpers (CPython semantics) -/

/-- Decimal value of an ASCII digit character, `none` otherwise
(the `[0-9]` character class of CPython `_strptime`). -/
def charVal (c : Char) : Option Nat :=
  if 48 ≤ c.toNat ∧ c.toNat ≤ 57 then some (c.toNat - 48) else none

/-- ASCII digit character for a value `0..9` (values `≥ 9` clamp to `'9'`;
only ever used with arguments `< 10`). -/
def digitChar : Nat → Char
  | 0 => '0'
  | 1 => '1'
  | 2 => '2'
  | 3 => '3'
  | 4 => '4'
  | 5 => '5'
  | 6 => '6'
  | 7 => '7'
  | 8 => '8'
  | _ => '9'

/-- The set of characters matched by CPython's `str.isspace` / `re` `\s`
for `str` patterns (Unicode whitespace). -/
def pyIsSpace (c : Char) : Bool :=
  let n := c.toNat
  (9 ≤ n && n ≤ 13) || n == 32 || (28 ≤ n && n ≤ 31) || n == 133 || n == 160 ||
  n == 0x1680 || (0x2000 ≤ n && n ≤ 0x200a) || n == 0x2028 || n == 0x2029 ||
  n == 0x202f || n == 0x205f || n == 0x3000

/-- `str.strip()` with no arguments: remove leading and trailing whitespace. -/
def pyStrip (l : List Char) : List Char :=
  ((l.dropWhile pyIsSpace).reverse.dropWhile pyIsSpace).reverse

/-- Value of a list of characters read as a decimal numeral; `none` if any
character is not an ASCII digit.  (The empty list yields `some 0`; all call
sites require a fixed positive length.) -/
def digitsVal (l : List Char) : Option Nat :=
  l.foldl
    (fun acc c =>
      match acc, charVal c with
      | some a, some v => some (a * 10 + v)
      | _, _ => none)
    (some 0)

/-! ## Dates (`datetime.date`, embedded) -/

/-- A Python `datetime.date`: proleptic Gregorian calendar date. -/
structure PyDate where
  year : Nat
  month : Nat
  day : Nat
deriving DecidableEq, Repr

/-- Gregorian leap-year rule (as in CPython `datetime`). -/
def isLeapYear (y : Nat) : Bool :=
  (y % 4 == 0 && y % 100 != 0) || y % 400 == 0

/-- Number of days of month `m` of year `y` (CPython `calendar` rule). -/
def daysInMonth (y m : Nat) : Nat :=
  if m = 2 then (if isLeapYear y then 29 else 28)
  else if m = 4 ∨ m = 6 ∨ m = 9 ∨ m = 11 then 30
  else 31

/-- The validity check performed by the `datetime.date` constructor. -/
def PyDate.valid (d : PyDate) : Bool :=
  1 ≤ d.year && d.year ≤ 9999 && 1 ≤ d.month && d.month ≤ 12 &&
  1 ≤ d.day && d.day ≤ daysInMonth d.year d.month

/-- Two-digit zero-padded decimal rendering (strftime `%m` / `%d`). -/
def pad2 (n : Nat) : List Char :=
  [digitChar (n / 10 % 10), digitChar (n % 10)]

/-- Four-digit zero-padded decimal rendering (as in `date.isoformat`). -/
def pad4 (n : Nat) : List Char :=
  [digitChar (n / 1000 % 10), digitChar (n / 100 % 10),
   digitChar (n / 10 % 10), digitChar (n % 10)]

/-- Decimal rendering of a year by strftime `%Y` (CPython on glibc does not
zero-pad years below 1000). -/
def formatYear (n : Nat) : List Char :=
  Nat.toDigits 10 n

/-- `value.strftime("%m-%d-%Y")` — the backend payload date format
(`PAYLOAD_DATE_FORMAT` in `utils.py`). -/
def strftime_mdY (d : PyDate) : List Char :=
  pad2 d.month ++ '-' :: (pad2 d.day ++ '-' :: formatYear d.year)

/-- `date.isoformat()`: `YYYY-MM-DD`, zero-padded. -/
def isoformat (d : PyDate) : List Char :=
  pad4 d.year ++ '-' :: (pad2 d.month ++ '-' :: pad2 d.day)

/-- `l.splitOn sep` for characters, mirroring the way the two `strptime`
formats used by `ensure_payload_date` decompose their input at the literal
separator `-` (each `%`-directive of those formats matches only digits). -/
def splitSep (sep : Char) : List Char → List (List Char)
  | [] => [[]]
  | c :: cs =>
    let r := splitSep sep cs
    if c = sep then [] :: r
    else
      match r with
      | h :: t => (c :: h) :: t
      | [] => [[c]]

/-- A field of 1 or 2 ASCII digits whose value lies in `[lo, hi]`
(the pure-digit alternatives of the CPython `_strptime` character classes:
`%m` is `1[0-2]|0[1-9]|[1-9]`, and the digit alternatives of `%d` are
`3[0-1]|[1-2]\d|0[1-9]|[1-9]`). -/
def numField2 (lo hi : Nat) (l : List Char) : Option Nat :=
  if l.length = 1 ∨ l.length = 2 then
    match digitsVal l with
    | some v => if lo ≤ v ∧ v ≤ hi then some v else none
    | none => none
  else none

/-- A field of exactly 4 ASCII digits (the `%Y` directive). -/
def numField4 (l : List Char) : Option Nat :=
  if l.length = 4 then digitsVal l else none

/-- The full `%d` directive of CPython `_strptime`:
`3[0-1]|[1-2]\d|0[1-9]|[1-9]| [1-9]` — one or two digits valued `1..31`,
*or* a space followed by one digit `1..9` (the space-padded-day
alternative).  A field starting with a space can only match that last
alternative, since every other alternative starts with a digit. -/
def dayField (l : List Char) : Option Nat :=
  if l.head? = some ' ' then
    match l with
    | [_, c] =>
      (match charVal c with
       | some v => if 1 ≤ v ∧ v ≤ 9 then some v else none
       | none => none)
    | _ => none
  else numField2 1 31 l

/-- `datetime.strptime(text, "%Y-%m-%d").date()`, returning `none` instead of
raising `ValueError`.  The regex built by `_strptime` for this format is
`(\d{4})-(%m)-(%d)` anchored on both sides; no field can contain `-`, so it
is equivalent to splitting on `-` into exactly three fields (the day field
admitting the space-padded alternative of `%d`); the resulting numbers then
pass through the `datetime` constructor's range checks. -/
def strptime_Ymd (l : List Char) : Option PyDate :=
  match splitSep '-' l with
  | [ys, ms, ds] =>
    match numField4 ys, numField2 1 12 ms, dayField ds with
    | some y, some m, some d =>
      if 1 ≤ y ∧ d ≤ daysInMonth y m then some ⟨y, m, d⟩ else none
    | _, _, _ => none
  | _ => none

/-- `datetime.strptime(text, "%m-%d-%Y").date()`, returning `none` instead of
raising `ValueError`. -/
def strptime_mdY (l : List Char) : Option PyDate :=
  match splitSep '-' l with
  | [ms, ds, ys] =>
    match numField2 1 12 ms, dayField ds, numField4 ys with
    | some m, some d, some y =>
      if 1 ≤ y ∧ d ≤ daysInMonth y m then some ⟨y, m, d⟩ else none
    | _, _, _ => none
  | _ => none

/-- The argument type `Union[str, date, datetime]` of `ensure_payload_date`
(the time-of-day fields of a `datetime` are ignored by `%m-%d-%Y` and are
omitted from the embedding). -/
inductive PyDateValue where
  | str (s : List Char)
  | date (d : PyDate)
  | datetime (d : PyDate)

/-- `ensure_payload_date` from `utils.py`: `date`/`datetime` inputs are
rendered with `%m-%d-%Y`; strings are stripped, then parsed with
`%Y-%m-%d` and `%m-%d-%Y` in that order and re-rendered; strings matching
neither format are returned (stripped) as they are. -/
def ensure_payload_date : PyDateValue → List Char
  | .datetime d => strftime_mdY d
  | .date d => strftime_mdY d
  | .str s =>
    let text := pyStrip s
    match strptime_Ymd text with
    | some d => strftime_mdY d
    | none =>
      match strptime_mdY text with
      | some d => strftime_mdY d
      | none => text

/-! ## `models.py`: `Company`, `HistoricalPrice`, `CHART_DATE` parsing -/

/-- `Company` from `models.py` (all fields Python strings). -/
structure Company where
  company_id : List Char
  security_id : List Char
  company_name : List Char
  stock_symbol : List Char
deriving DecidableEq, Repr

/-- `HistoricalPrice` from `models.py`.  The five price fields are kept as
opaque text (`str(...)` is applied to them by `from_api`); the Python field
`open` is a Lean keyword and is embedded as `open_`. -/
structure HistoricalPrice where
  date : PyDate
  symbol : List Char
  value : List Char
  open_ : List Char
  close : List Char
  high : List Char
  low : List Char
deriving DecidableEq, Repr

/-- Lowercase month abbreviations recognised by strptime `%b`
(C locale, matched case-insensitively). -/
def monthAbbrevs : List (List Char) :=
  ["jan".toList, "feb".toList, "mar".toList, "apr".toList, "may".toList,
   "jun".toList, "jul".toList, "aug".toList, "sep".toList, "oct".toList,
   "nov".toList, "dec".toList]

/-- strptime `%b`: three letters naming a month abbreviation,
case-insensitively; yields the month number `1..12` and the rest of the
input. -/
def parseMonthAbbrev : List Char → Option (Nat × List Char)
  | c1 :: c2 :: c3 :: rest =>
    match monthAbbrevs.findIdx? (fun a => a = [c1.toLower, c2.toLower, c3.toLower]) with
    | some i => some (i + 1, rest)
    | none => none
  | _ => none

/-- A literal whitespace in a strptime format matches `\s+`: at least one
whitespace character, consumed greedily (every directive following a
whitespace in `CHART_DATE_FORMAT` starts with a digit, so greedy matching is
exact). -/
def skipWs1 : List Char → Option (List Char)
  | c :: rest => if pyIsSpace c then some (rest.dropWhile pyIsSpace) else none
  | [] => none

/-- One or two leading ASCII digits, consumed greedily, with their value
(the numeric strptime directives `%d`, `%H`, `%M`, `%S` are all followed by a
non-digit literal in `CHART_DATE_FORMAT`, so greedy matching is exact). -/
def parseNum2 : List Char → Option (Nat × List Char)
  | a :: b :: rest =>
    (match charVal a, charVal b with
     | some va, some vb => some (va * 10 + vb, rest)
     | some va, none => some (va, b :: rest)
     | none, _ => none)
  | [a] => (charVal a).map (fun v => (v, ([] : List Char)))
  | [] => none

/-- strptime `%Y`: exactly four ASCII digits. -/
def parseNum4 : List Char → Option (Nat × List Char)
  | a :: b :: c :: d :: rest =>
    (match digitsVal [a, b, c, d] with
     | some v => some (v, rest)
     | none => none)
  | _ => none

/-- An expected literal character of the format. -/
def expectChar (c : Char) : List Char → Option (List Char)
  | a :: rest => if a = c then some rest else none
  | [] => none

/-- `datetime.strptime(s, "%b %d, %Y %H:%M:%S").date()` — the fixed
`CHART_DATE_FORMAT` of `models.py` — returning `none` instead of raising
`ValueError`.  The whole input must be consumed; field ranges are those of
the `_strptime` regex combined with the `datetime` constructor checks
(day bounded by the month length, hour `0..23`, minute and second `0..59`,
year at least 1). -/
def parseChartDate (s : List Char) : Option PyDate := do
  let (m, r1) ← parseMonthAbbrev s
  let r2 ← skipWs1 r1
  let (d, r3) ← parseNum2 r2
  let r4 ← expectChar ',' r3
  let r5 ← skipWs1 r4
  let (y, r6) ← parseNum4 r5
  let r7 ← skipWs1 r6
  let (h, r8) ← parseNum2 r7
  let r9 ← expectChar ':' r8
  let (mi, r10) ← parseNum2 r9
  let r11 ← expectChar ':' r10
  let (sec, r12) ← parseNum2 r11
  if r12 = [] ∧ 1 ≤ d ∧ d ≤ daysInMonth y m ∧ 1 ≤ y ∧ h ≤ 23 ∧ mi ≤ 59 ∧ sec ≤ 59 then
    pure ⟨y, m, d⟩
  else
    none

/-- A backend payload item (one element of `chartData`): a JSON object,
embedded as an association list from key to the value's text (`from_api`
applies `str(...)` to every price field, so values are embedded after that
conversion). -/
def Item : Type := List (String × List Char)

instance : DecidableEq Item := by
  unfold Item
  infer_instance

/-- `payload[key]` on an embedded JSON object: `none` is a `KeyError`. -/
def lookupField (item : Item) (k : String) : Option (List Char) :=
  (item.find? (fun kv => kv.1 = k)).map (fun kv => kv.2)

/-- `HistoricalPrice.from_api` from `models.py`: `None` (here `none`) when
`CHART_DATE` is missing, when its value does not parse against
`CHART_DATE_FORMAT`, or when one of the five price fields is missing — the
`except (KeyError, ValueError)` of the source.  Field accesses happen in
source order: `CHART_DATE`, the date parse, then `VALUE`, `OPEN`, `CLOSE`,
`HIGH`, `LOW`. -/
def HistoricalPrice.from_api (payload : Item) (symbol : List Char) :
    Option HistoricalPrice :=
  match lookupField payload "CHART_DATE" with
  | none => none
  | some chart_date =>
    match parseChartDate chart_date with
    | none => none
    | some parsed_date =>
      match lookupField payload "VALUE", lookupField payload "OPEN",
            lookupField payload "CLOSE", lookupField payload "HIGH",
            lookupField payload "LOW" with
      | some v, some o, some c, some h, some l =>
        some ⟨parsed_date, symbol, v, o, c, h, l⟩
      | _, _, _, _, _ => none

/-! ## `scraper.py`: directory page parsing and pagination -/

/-- The ASCII single-quote character, written by code point. -/
def quoteChar : Char := Char.ofNat 39

/-- An `<a>` element as seen by the parser: its `onclick` attribute (if any)
and the texts of its child nodes.  BeautifulSoup's `Tag.__len__` is the
number of children, so the tag is *falsy* exactly when `childTexts = []`;
`Tag.text` is the concatenation of the descendant strings. -/
structure Anchor where
  onclick : Option (List Char)
  childTexts : List (List Char)
deriving DecidableEq, Repr

/-- A `<td>` cell: the `<a>` descendants in document order
(`td.find("a")` is the head of this list). -/
structure Td where
  anchors : List Anchor
deriving DecidableEq, Repr

/-- A `<tr>` row of the directory table (`table.list tbody tr`), as a list of
its `<td>` cells. -/
structure RowHtml where
  tds : List Td
deriving DecidableEq, Repr

/-- Truthiness of a BeautifulSoup `Tag`: `len(tag.contents) > 0`. -/
def tagTruthy (a : Anchor) : Bool :=
  !a.childTexts.isEmpty

/-- `anchor.text.strip()`. -/
def anchorText (a : Anchor) : List Char :=
  pyStrip a.childTexts.flatten

/-- Consume an expected literal prefix. -/
def expectLit : List Char → List Char → Option (List Char)
  | [], l => some l
  | p :: ps, c :: cs => if c = p then expectLit ps cs else none
  | _ :: _, [] => none

/-- One or more ASCII digits, consumed greedily (`\d+`; in the `cmDetail`
pattern every `\d+` is followed by a single quote, so greedy matching is
exact). -/
def takeDigits1 (l : List Char) : Option (List Char × List Char) :=
  match l.span (fun c => (charVal c).isSome) with
  | (ds, rest) => if ds.isEmpty then none else some (ds, rest)

/-- The literal head `cmDetail('` of the scraper's regex. -/
def cmDetailLit : List Char :=
  "cmDetail(".toList ++ [quoteChar]

/-- Try to match `cmDetail\('(\d+)',\s*'(\d+)'\)` at the start of `l`,
yielding the two captured digit groups. -/
def matchCmDetailAt (l : List Char) : Option (List Char × List Char) := do
  let r1 ← expectLit cmDetailLit l
  let (d1, r2) ← takeDigits1 r1
  let r3 ← expectLit [quoteChar, ','] r2
  let r4 := r3.dropWhile pyIsSpace
  let r5 ← expectLit [quoteChar] r4
  let (d2, r6) ← takeDigits1 r5
  let _ ← expectLit [quoteChar, ')'] r6
  pure (d1, d2)

/-- `re.search(r"cmDetail\('(\d+)',\s*'(\d+)'\)", s)`: leftmost match. -/
def searchCmDetail : List Char → Option (List Char × List Char)
  | [] => none
  | c :: rest =>
    match matchCmDetailAt (c :: rest) with
    | some g => some g
    | none => searchCmDetail rest

/-- The per-row step of `parse_companies_from_html`: a row yields a
`Company` when it has at least two cells, both cells contain an `<a>` that is
truthy as a tag, and the name link's `onclick` value contains a `cmDetail`
match.  (`anchor.get("onclick", "")` defaults a missing attribute to the
empty string.) -/
def rowToCompany (row : RowHtml) : Option Company :=
  match row.tds with
  | td0 :: td1 :: _ =>
    match td0.anchors.head?, td1.anchors.head? with
    | some name_anchor, some symbol_anchor =>
      if tagTruthy name_anchor = false ∨ tagTruthy symbol_anchor = false then
        none
      else
        match searchCmDetail (name_anchor.onclick.getD []) with
        | none => none
        | some (company_id, security_id) =>
          some ⟨company_id, security_id, anchorText name_anchor,
                anchorText symbol_anchor⟩
    | _, _ => none
  | _ => none

/-- `parse_companies_from_html` from `scraper.py`, over the rows selected by
`soup.select("table.list tbody tr")` (the HTML-to-DOM step is the
BeautifulSoup library; its output is the embedding's input).  Rows that fail
any condition are skipped; kept rows appear in document order. -/
def parse_companies_from_html (rows : List RowHtml) : List Company :=
  rows.filterMap rowToCompany

/-- A transport failure raised by the client (`requests.RequestException`
after the client's own retries are exhausted). -/
inductive ReqErr where
  | transport
deriving DecidableEq, Repr

/-- A directory page response: HTTP status and the parsed row structure of
the body (`response.text` after BeautifulSoup). -/
structure Page where
  status : Nat
  body : List RowHtml
deriving DecidableEq, Repr

/-- The `while True` loop of `scrape_companies`, with an explicit fuel bound
on the number of iterations; `none` means the fuel ran out before the loop
exited, so every theorem about a finished run holds for every sufficient
fuel.  The result carries the number of page fetches performed.  A client
exception is *not* caught by the source (there is no `try` in
`scrape_companies`), so it becomes the `Except.error` outcome. -/
def scrape_loop (fetch : Nat → Except ReqErr Page) (max_pages : Option Nat) :
    Nat → Nat → List Company → Nat →
    Option (Except ReqErr (List Company) × Nat)
  | 0, _, _, _ => none
  | fuel + 1, page, acc, count =>
    if (match max_pages with | some mp => Nat.blt mp page | none => false) then
      some (.ok acc, count)
    else
      match fetch page with
      | .error e => some (.error e, count + 1)
      | .ok response =>
        if response.status ≠ 200 then
          some (.ok acc, count + 1)
        else
          let new_rows := parse_companies_from_html response.body
          if new_rows.isEmpty then
            some (.ok acc, count + 1)
          else
            scrape_loop fetch max_pages fuel (page + 1) (acc ++ new_rows)
              (count + 1)

/-- `scrape_companies` from `scraper.py`: paginate from page 1 with an empty
accumulator. -/
def scrape_companies (fetch : Nat → Except ReqErr Page)
    (max_pages : Option Nat) (fuel : Nat) :
    Option (Except ReqErr (List Company) × Nat) :=
  scrape_loop fetch max_pages fuel 1 [] 0

/-! ## `utils.py`: `sanitize_filename` -/

/-- The filesystem-unsafe characters replaced by `-`
(the regex class `[\\/:\*\?\"<>\|]`). -/
def forbiddenChar (c : Char) : Bool :=
  c = '\\' || c = '/' || c = ':' || c = '*' || c = '?' || c = '"' ||
  c = '<' || c = '>' || c = '|'

/-- `html.unescape`: CPython returns the input unchanged when it contains no
`&`; otherwise it substitutes character references.  The (large) HTML5 entity
table is abstracted as the parameter `entitySub` — every theorem below holds
for an arbitrary substitution, hence for the real one. -/
def html_unescape (entitySub : List Char → List Char) (s : List Char) :
    List Char :=
  if s.contains '&' then entitySub s else s

/-- `cleaned.replace("&", "and")`. -/
def replaceAmp (s : List Char) : List Char :=
  s.flatMap (fun c => if c = '&' then ['a', 'n', 'd'] else [c])

/-- `re.sub(r"[\\/:\*\?\"<>\|]", "-", cleaned)` (a single-character class, so
a character-wise map). -/
def replaceForbidden (s : List Char) : List Char :=
  s.map (fun c => if forbiddenChar c then '-' else c)

/-- Replace every maximal run of characters satisfying `p` by the single
character `r` (`re.sub(r"\s+", " ", ·)` and `re.sub(r"_+", "_", ·)`).
The flag records whether the previous character was part of a run. -/
def collapseAux (p : Char → Bool) (r : Char) : Bool → List Char → List Char
  | _, [] => []
  | inRun, c :: cs =>
    if p c then
      if inRun then collapseAux p r true cs
      else r :: collapseAux p r true cs
    else c :: collapseAux p r false cs

/-- Entry point of `collapseAux`: not inside a run. -/
def collapseRuns (p : Char → Bool) (r : Char) (l : List Char) : List Char :=
  collapseAux p r false l

/-- `cleaned.replace(" ", "_")`. -/
def spacesToUnderscore (s : List Char) : List Char :=
  s.map (fun c => if c = ' ' then '_' else c)

/-- The characters trimmed from both ends by `cleaned.strip("._-")`. -/
def stripSet : List Char := ['.', '_', '-']

/-- Remove trailing characters belonging to `set` (structural form of the
right half of `str.strip(chars)`). -/
def trimRight (set : List Char) : List Char → List Char
  | [] => []
  | c :: cs =>
    match trimRight set cs with
    | [] => if c ∈ set then [] else [c]
    | r => c :: r

/-- `str.strip(chars)`: drop leading then trailing characters of `set`. -/
def stripChars (set : List Char) (l : List Char) : List Char :=
  trimRight set (l.dropWhile (fun c => decide (c ∈ set)))

/-- The value of the local variable `cleaned` in `sanitize_filename` just
before the emptiness test and the truncation: unescape, strip, `&`→`and`,
unsafe characters→`-`, collapse whitespace to one space, spaces→`_`,
collapse `_` runs, strip `._-`. -/
def cleanedName (entitySub : List Char → List Char) (value : List Char) :
    List Char :=
  let c1 := pyStrip (html_unescape entitySub value)
  let c2 := replaceAmp c1
  let c3 := replaceForbidden c2
  let c4 := collapseRuns pyIsSpace ' ' c3
  let c5 := spacesToUnderscore c4
  let c6 := collapseRuns (fun c => c = '_') '_' c5
  stripChars stripSet c6

/-- `sanitize_filename` from `utils.py` (with the default
`max_length = 140`): the cleaned name, `"unknown"` if it is empty, truncated
to 140 characters otherwise. -/
def sanitize_filename (entitySub : List Char → List Char)
    (value : List Char) : List Char :=
  let cleaned := cleanedName entitySub value
  if cleaned = [] then "unknown".toList else cleaned.take 140

/-! ## `downloader.py`: history fetch with cache, and the per-company loop -/

/-- The JSON body of `_build_history_payload`. -/
structure HistReq where
  cmpy_id : List Char
  security_id : List Char
  startDate : List Char
  endDate : List Char
deriving DecidableEq, Repr

/-- `_build_history_payload` from `downloader.py`. -/
def build_history_payload (company : Company) (start_date end_date : List Char) :
    HistReq :=
  ⟨company.company_id, company.security_id, start_date, end_date⟩

/-- The decoded JSON of a history response.  The source only ever reads
`payload.get("chartData", [])`; a payload without the key is `none` here. -/
structure ApiPayload where
  chartData : Option (List Item)
deriving DecidableEq

/-- `cache_payload.get("chartData", [])`. -/
def getChartData (p : ApiPayload) : List Item :=
  p.chartData.getD []

/-- A history endpoint response: HTTP status and the decoded JSON body
(`none` when `response.json()` raises `ValueError`). -/
structure HistResponse where
  status : Nat
  jsonBody : Option ApiPayload

/-- The error classes that escape `fetch_historical_data`:
`requests.RequestException` (transport failures, and the `HTTPError` raised
by `raise_for_status`) and the `ValueError` of an undecodable JSON body. -/
inductive FetchErr where
  | requestError
  | payloadError
deriving DecidableEq, Repr

/-- `_cache_key` from `downloader.py`. -/
def cache_key (company : Company) (start_date end_date : List Char) :
    List Char :=
  company.company_id ++ '_' :: company.security_id ++ '_' :: start_date ++
    '_' :: end_date ++ ".json".toList

/-- The cache directory as a map from file name to the stored decoded JSON
(`_save_cached_json` writes `json.dump(payload)`, `_load_cached_json` reads
it back; a JSON value round-trips, so the entry stores the payload itself). -/
structure CacheState where
  entries : List (List Char × ApiPayload)

/-- `_load_cached_json`: `none` when the file does not exist (a corrupt
entry also loads as `none`; a freshly written entry always re-reads). -/
def load_cached_json (st : CacheState) (path : List Char) : Option ApiPayload :=
  (st.entries.find? (fun kv => kv.1 = path)).map (fun kv => kv.2)

/-- `_save_cached_json`: (over)write the entry. -/
def save_cached_json (st : CacheState) (path : List Char) (p : ApiPayload) :
    CacheState :=
  ⟨(path, p) :: st.entries⟩

/-- The row-extraction loop at the end of `fetch_historical_data`: keep the
items `HistoricalPrice.from_api` accepts, in order. -/
def parse_chart_rows (chart_data : List Item) (symbol : List Char) :
    List HistoricalPrice :=
  chart_data.filterMap (fun item => HistoricalPrice.from_api item symbol)

/-- `fetch_historical_data` from `downloader.py` over a network oracle
`net` (the `client.post` call).  Returns the outcome, the cache state after
the call, and the number of network requests performed.  With caching
enabled and `refresh = false` a cache hit skips the network entirely;
otherwise the response must have a non-error status (`raise_for_status`
raises for `400 ≤ status < 600`) and a decodable JSON body, which is then
cached (when caching is enabled) and parsed. -/
def fetch_historical_data (net : HistReq → Except ReqErr HistResponse)
    (company : Company) (start_date end_date : List Char)
    (cacheEnabled : Bool) (refresh : Bool) (st : CacheState) :
    Except FetchErr (List HistoricalPrice) × CacheState × Nat :=
  let cache_path := cache_key company start_date end_date
  let cache_payload : Option ApiPayload :=
    if cacheEnabled ∧ refresh = false then load_cached_json st cache_path
    else none
  match cache_payload with
  | some p =>
    (.ok (parse_chart_rows (getChartData p) company.stock_symbol), st, 0)
  | none =>
    match net (build_history_payload company start_date end_date) with
    | .error _ => (.error .requestError, st, 1)
    | .ok response =>
      if 400 ≤ response.status ∧ response.status < 600 then
        (.error .requestError, st, 1)
      else
        match response.jsonBody with
        | none => (.error .payloadError, st, 1)
        | some p =>
          let st' := if cacheEnabled then save_cached_json st cache_path p
                     else st
          (.ok (parse_chart_rows (getChartData p) company.stock_symbol),
           st', 1)

/-- `symbol.strip().upper()` (tickers are ASCII; `Char.toUpper` matches
`str.upper` there). -/
def normalizeSymbol (s : List Char) : List Char :=
  (pyStrip s).map Char.toUpper

/-- The `symbol_set` of `download_historical_data`:
`{symbol.strip().upper() for symbol in symbols} if symbols else None` — an
empty or missing sequence yields `None` (no filtering). -/
def symbolSet (symbols : Option (List (List Char))) :
    Option (List (List Char)) :=
  match symbols with
  | none => none
  | some l => if l.isEmpty then none else some (l.map normalizeSymbol)

/-- The configuration of one `download_historical_data` run (fields the
claims exercise; `output_dir` is the root of `files`). -/
structure DlConfig where
  symbols : Option (List (List Char))
  max_companies : Option Nat
  cacheEnabled : Bool
  refresh : Bool

/-- The mutable state of the per-company loop: the output files present on
disk (by name), the cache directory, the accumulated `saved_paths`, and the
`processed` counter. -/
structure DlState where
  files : List (List Char)
  cache : CacheState
  saved_paths : List (List Char)
  processed : Nat

/-- The output file name derived for a company:
`f"{company.stock_symbol}_{safe_name}.csv"`. -/
def companyFileName (entitySub : List Char → List Char) (company : Company) :
    List Char :=
  company.stock_symbol ++ '_' ::
    (sanitize_filename entitySub company.company_name ++ ".csv".toList)

/-- The `for company in companies` loop of `download_historical_data`.
In source order: the symbol filter (`continue`, not counted), the
`max_companies` check (`break`), the `processed` increment, the
existing-file skip (counted as saved), then the guarded fetch: a
`requests.RequestException` or a `ValueError`/`KeyError` is caught and
logged and the loop continues; an empty row list writes nothing; otherwise
the file is written and its path recorded. -/
def download_loop (net : HistReq → Except ReqErr HistResponse)
    (entitySub : List Char → List Char) (cfg : DlConfig)
    (start_payload end_payload : List Char) :
    List Company → DlState → DlState
  | [], s => s
  | company :: rest, s =>
    if (match symbolSet cfg.symbols with
        | some set => !(set.contains (company.stock_symbol.map Char.toUpper))
        | none => false) then
      download_loop net entitySub cfg start_payload end_payload rest s
    else if (match cfg.max_companies with
             | some m => Nat.ble m s.processed
             | none => false) then
      s
    else
      let s₁ : DlState := { s with processed := s.processed + 1 }
      let filename := companyFileName entitySub company
      if s.files.contains filename ∧ cfg.refresh = false then
        download_loop net entitySub cfg start_payload end_payload rest
          { s₁ with saved_paths := s₁.saved_paths ++ [filename] }
      else
        match fetch_historical_data net company start_payload end_payload
            cfg.cacheEnabled cfg.refresh s.cache with
        | (.error _, cache', _) =>
          download_loop net entitySub cfg start_payload end_payload rest
            { s₁ with cache := cache' }
        | (.ok rows, cache', _) =>
          if rows.isEmpty then
            download_loop net entitySub cfg start_payload end_payload rest
              { s₁ with cache := cache' }
          else
            download_loop net entitySub cfg start_payload end_payload rest
              { s₁ with
                cache := cache'
                files := s₁.files ++ [filename]
                saved_paths := s₁.saved_paths ++ [filename] }

/-- `download_historical_data` from `downloader.py`, for an explicitly given
company list (the `companies` parameter of the source; `input_csv` loading
is file I/O outside the claims).  `today` stands for `date.today()`, the
default `end_date`. -/
def download_historical_data (net : HistReq → Except ReqErr HistResponse)
    (entitySub : List Char → List Char) (companies : List Company)
    (cfg : DlConfig) (start_date end_date : Option PyDateValue)
    (today : PyDate) (s : DlState) : DlState :=
  let start_payload :=
    ensure_payload_date (start_date.getD (.str "01-01-1900".toList))
  let end_payload := ensure_payload_date (end_date.getD (.date today))
  download_loop net entitySub cfg start_payload end_payload companies s

/-! ## `combiner.py`: per-row symbol fallback -/

/-- `filename.split("_", 1)` on a file stem known to contain `_`: the part
before the first underscore (the filename-derived symbol) and the rest. -/
def splitFirstUnderscore (stem : List Char) : List Char × List Char :=
  match stem.span (fun c => c ≠ '_') with
  | (before, _ :: after) => (before, after)
  | (before, []) => (before, [])

/-- One output row written by `combine_csvs` for one input data row:
`[row.get("Symbol") or symbol, company, row.get("Date", ""), ...]`.  The
input row is a `csv.DictReader` mapping; `x or y` falls back when `x` is
`None` *or* the empty string. -/
def combine_output_row (row : Item) (symbol company : List Char) :
    List (List Char) :=
  [(match lookupField row "Symbol" with
    | none => symbol
    | some s => if s = [] then symbol else s),
   company,
   (lookupField row "Date").getD [],
   (lookupField row "Value").getD [],
   (lookupField row "Open").getD [],
   (lookupField row "Close").getD [],
   (lookupField row "High").getD [],
   (lookupField row "Low").getD []]

/-- No two adjacent characters of the list both satisfy `p` (the shape
guaranteed by a run-collapsing substitution). -/
def noDblP (p : Char → Bool) : List Char → Bool
  | a :: b :: t => (!(p a && p b)) && noDblP p (b :: t)
  | _ => true

/-- The last character (if any) is not one of the characters stripped by
`strip("._-")` — the shape of a sanitized name that was not cut mid-way by
the 140-character truncation. -/
def stripLastOk (l : List Char) : Bool :=
  match l.getLast? with
  | some c => decide (c ∉ stripSet)
  | none => true

/-! ## Theorems -/

theorem charVal_digitChar {k : Nat} (h : k < 10) :
    charVal (digitChar k) = some k := by
  interval_cases k <;> rfl

theorem digitChar_not_space (k : Nat) : pyIsSpace (digitChar k) = false := by
  unfold digitChar
  split <;> decide

theorem digitChar_ne_dash (k : Nat) : digitChar k ≠ '-' := by
  unfold digitChar
  split <;> decide

theorem dropWhile_eq_self (p : Char → Bool) (l : List Char)
    (h : ∀ c ∈ l, p c = false) : l.dropWhile p = l := by
  cases l with
  | nil => rfl
  | cons c cs =>
    rw [List.dropWhile_cons]
    simp [h c (List.mem_cons_self c cs)]

theorem pyStrip_eq_self (l : List Char)
    (h : ∀ c ∈ l, pyIsSpace c = false) : pyStrip l = l := by
  unfold pyStrip
  rw [dropWhile_eq_self pyIsSpace l h]
  rw [dropWhile_eq_self pyIsSpace l.reverse
    (fun c hc => h c (List.mem_reverse.mp hc))]
  exact List.reverse_reverse l

theorem download_loop_symbols_congr (net : HistReq → Except ReqErr HistResponse)
    (entitySub : List Char → List Char) (mc : Option Nat) (ce rf : Bool)
    (sp ep : List Char) (sy sy' : Option (List (List Char)))
    (h : symbolSet sy = symbolSet sy') :
    ∀ (companies : List Company) (s : DlState),
      download_loop net entitySub ⟨sy, mc, ce, rf⟩ sp ep companies s =
      download_loop net entitySub ⟨sy', mc, ce, rf⟩ sp ep companies s := by
  intro companies
  induction companies with
  | nil => intro s; rfl
  | cons c rest ih =>
    intro s
    simp only [download_loop, h]
    split
    · exact ih s
    · split
      · rfl
      · split
        · exact ih _
        · split
          · exact ih _
          · split
            · exact ih _
            · exact ih _

/-- C10: `download_historical_data` with `symbols` an empty sequence
behaves exactly as with `symbols = None`: the empty allow-list is falsy in
`{...} if symbols else None`, so the symbol filter is disabled rather than
excluding every company. -/
theorem download_empty_symbols_like_none
    (net : HistReq → Except ReqErr HistResponse)
    (entitySub : List Char → List Char) (companies : List Company)
    (mc : Option Nat) (ce rf : Bool) (sd ed : Option PyDateValue)
    (today : PyDate) (s : DlState) :
    download_historical_data net entitySub companies ⟨some [], mc, ce, rf⟩
        sd ed today s =
    download_historical_data net entitySub companies ⟨none, mc, ce, rf⟩
        sd ed today s := by
  unfold download_historical_data
  exact download_loop_symbols_congr net entitySub mc ce rf _ _ (some []) none
    rfl companies s

/-- C1: fetching with an empty cache directory and `refresh = false`, then
fetching again with the now-populated cache, yields the same parsed rows,
the first call performing exactly one network request and the second none
(the cached payload is parsed instead). -/
theorem fetch_cache_equivalence (net : HistReq → Except ReqErr HistResponse)
    (company : Company) (start_date end_date : List Char)
    (resp : HistResponse) (p : ApiPayload)
    (hnet : net (build_history_payload company start_date end_date) = .ok resp)
    (hstatus : resp.status < 400) (hjson : resp.jsonBody = some p) :
    let r1 := fetch_historical_data net company start_date end_date true false
      ⟨[]⟩
    let r2 := fetch_historical_data net company start_date end_date true false
      r1.2.1
    r1.1 = .ok (parse_chart_rows (getChartData p) company.stock_symbol) ∧
    r2.1 = r1.1 ∧ r1.2.2 = 1 ∧ r2.2.2 = 0 := by
  have h1 : fetch_historical_data net company start_date end_date true false
      ⟨[]⟩ =
      (.ok (parse_chart_rows (getChartData p) company.stock_symbol),
       save_cached_json ⟨[]⟩ (cache_key company start_date end_date) p, 1) := by
    unfold fetch_historical_data
    simp only [load_cached_json, List.find?_nil, Option.map_none, hnet]
    have : ¬(400 ≤ resp.status ∧ resp.status < 600) := by omega
    simp [this, hjson]
  have h2 : fetch_historical_data net company start_date end_date true false
      (save_cached_json ⟨[]⟩ (cache_key company start_date end_date) p) =
      (.ok (parse_chart_rows (getChartData p) company.stock_symbol),
       save_cached_json ⟨[]⟩ (cache_key company start_date end_date) p, 0) := by
    unfold fetch_historical_data
    simp [load_cached_json, save_cached_json]
  simp [h1, h2]

/-- Witness for C1 at a concrete company and network oracle. -/
theorem fetch_cache_equivalence_witness :
    let net : HistReq → Except ReqErr HistResponse :=
      fun _ => .ok ⟨200, some ⟨some []⟩⟩
    let company : Company := ⟨['1'], ['2'], ['N'], ['S']⟩
    let r1 := fetch_historical_data net company ['a'] ['b'] true false ⟨[]⟩
    let r2 := fetch_historical_data net company ['a'] ['b'] true false r1.2.1
    r1.1 = .ok (parse_chart_rows (getChartData ⟨some []⟩) company.stock_symbol) ∧
    r2.1 = r1.1 ∧ r1.2.2 = 1 ∧ r2.2.2 = 0 :=
  fetch_cache_equivalence (fun _ => .ok ⟨200, some ⟨some []⟩⟩)
    ⟨['1'], ['2'], ['N'], ['S']⟩ ['a'] ['b'] ⟨200, some ⟨some []⟩⟩ ⟨some []⟩
    rfl (by decide) rfl

/-- C2: `HistoricalPrice.from_api` yields no row (and never a partial row)
when `CHART_DATE` is missing, when its value does not parse against
`CHART_DATE_FORMAT`, or when any of the five price fields is missing; and a
`chartData` of 3 valid items and 1 invalid item parses to exactly the 3
valid rows, in order. -/
theorem from_api_row_drop :
    (∀ (item : Item) (sym : List Char),
      (lookupField item "CHART_DATE" = none ∨
       (∃ cd, lookupField item "CHART_DATE" = some cd ∧
          parseChartDate cd = none) ∨
       lookupField item "VALUE" = none ∨ lookupField item "OPEN" = none ∨
       lookupField item "CLOSE" = none ∨ lookupField item "HIGH" = none ∨
       lookupField item "LOW" = none) →
      HistoricalPrice.from_api item sym = none) ∧
    parse_chart_rows
      [[("CHART_DATE", "Jan 02, 2024 00:00:00".toList),
        ("VALUE", ['1']), ("OPEN", ['2']), ("CLOSE", ['3']),
        ("HIGH", ['4']), ("LOW", ['5'])],
       [("CHART_DATE", "Jan 03, 2024 00:00:00".toList),
        ("VALUE", ['6']), ("OPEN", ['7']), ("CLOSE", ['8']),
        ("HIGH", ['9']), ("LOW", ['0'])],
       [("CHART_DATE", "not a date".toList),
        ("VALUE", ['x']), ("OPEN", ['x']), ("CLOSE", ['x']),
        ("HIGH", ['x']), ("LOW", ['x'])],
       [("CHART_DATE", "Jan 06, 2024 00:00:00".toList),
        ("VALUE", ['a']), ("OPEN", ['b']), ("CLOSE", ['c']),
        ("HIGH", ['d']), ("LOW", ['e'])]]
      ['P', 'S', 'E'] =
    [⟨⟨2024, 1, 2⟩, ['P', 'S', 'E'], ['1'], ['2'], ['3'], ['4'], ['5']⟩,
     ⟨⟨2024, 1, 3⟩, ['P', 'S', 'E'], ['6'], ['7'], ['8'], ['9'], ['0']⟩,
     ⟨⟨2024, 1, 6⟩, ['P', 'S', 'E'], ['a'], ['b'], ['c'], ['d'], ['e']⟩] := by
  constructor
  · intro item sym h
    unfold HistoricalPrice.from_api
    rcases hcd : lookupField item "CHART_DATE" with _ | cd
    · rfl
    · rcases hpd : parseChartDate cd with _ | pd
      · simp [hpd]
      · rcases h with h | ⟨cd', h1, h2⟩ | h | h | h | h | h
        · rw [h] at hcd; cases hcd
        · rw [hcd] at h1
          cases h1
          rw [hpd] at h2
          cases h2
        · simp [hpd, h]
        · simp [hpd, h]
        · simp [hpd, h]
        · simp [hpd, h]
        · simp [hpd, h]
  · decide

/-- Witness for C2 at a concrete item missing `CHART_DATE`. -/
theorem from_api_row_drop_witness :
    HistoricalPrice.from_api [("VALUE", ['1'])] ['X'] = none :=
  from_api_row_drop.1 [("VALUE", ['1'])] ['X'] (Or.inl (by decide))

theorem fetch_error_cache_unchanged (net : HistReq → Except ReqErr HistResponse)
    (company : Company) (sp ep : List Char) (ce rf : Bool) (st : CacheState)
    (e : FetchErr) (c' : CacheState) (n : Nat)
    (h : fetch_historical_data net company sp ep ce rf st = (.error e, c', n)) :
    c' = st := by
  unfold fetch_historical_data at h
  simp only [] at h
  split at h
  · simp at h
  · split at h
    · simp only [Prod.mk.injEq] at h
      exact h.2.1.symm
    · split at h
      · simp only [Prod.mk.injEq] at h
        exact h.2.1.symm
      · split at h
        · simp only [Prod.mk.injEq] at h
          exact h.2.1.symm
        · simp at h

/-- C3: a company whose fetch fails with a transport error or a
malformed-payload error contributes nothing to the run — no file, no saved
path, no cache change — and the loop continues over the remaining companies
exactly as it would have from the same outputs state (only the `processed`
counter advances): one company's failure never aborts the batch nor
prevents later companies' files from being written. -/
theorem download_failure_isolation (net : HistReq → Except ReqErr HistResponse)
    (entitySub : List Char → List Char) (cfg : DlConfig) (sp ep : List Char)
    (company : Company) (rest : List Company) (s : DlState) (e : FetchErr)
    (cache' : CacheState) (n : Nat)
    (hfilter : (match symbolSet cfg.symbols with
                | some set =>
                  !(set.contains (company.stock_symbol.map Char.toUpper))
                | none => false) = false)
    (hmax : (match cfg.max_companies with
             | some m => Nat.ble m s.processed
             | none => false) = false)
    (hexists : ¬(s.files.contains (companyFileName entitySub company) = true ∧
                 cfg.refresh = false))
    (hfetch : fetch_historical_data net company sp ep cfg.cacheEnabled
        cfg.refresh s.cache = (.error e, cache', n)) :
    download_loop net entitySub cfg sp ep (company :: rest) s =
    download_loop net entitySub cfg sp ep rest
      { s with processed := s.processed + 1 } := by
  have hcache : cache' = s.cache :=
    fetch_error_cache_unchanged net company sp ep cfg.cacheEnabled cfg.refresh
      s.cache e cache' n hfetch
  simp only [download_loop, hfilter, hmax]
  rw [if_neg (by simp), if_neg (by simp), if_neg hexists, hfetch, hcache]

/-- Witness for C3 at a concrete failing network oracle. -/
theorem download_failure_isolation_witness :
    download_loop (fun _ => .error .transport) (fun l => l) ⟨none, none,
        false, false⟩ ['a'] ['b'] [⟨['1'], ['2'], ['N'], ['S']⟩]
        ⟨[], ⟨[]⟩, [], 0⟩ =
    download_loop (fun _ => .error .transport) (fun l => l) ⟨none, none,
        false, false⟩ ['a'] ['b'] [] ⟨[], ⟨[]⟩, [], 1⟩ :=
  download_failure_isolation (fun _ => .error .transport) (fun l => l)
    ⟨none, none, false, false⟩ ['a'] ['b'] ⟨['1'], ['2'], ['N'], ['S']⟩ []
    ⟨[], ⟨[]⟩, [], 0⟩ .requestError ⟨[]⟩ 1 rfl rfl (by simp) rfl

/-- C4: when pages 1 and 2 parse to nonempty row lists with status 200 and
page 3 is the first page yielding zero parseable rows (also status 200),
`scrape_companies` returns page 1's rows followed by page 2's rows and
performs exactly 3 page fetches, for every sufficient iteration fuel. -/
theorem scrape_three_pages (fetch : Nat → Except ReqErr Page) (fuel : Nat)
    (b1 b2 b3 : List RowHtml) (hfuel : 3 ≤ fuel)
    (h1 : fetch 1 = .ok ⟨200, b1⟩) (h2 : fetch 2 = .ok ⟨200, b2⟩)
    (h3 : fetch 3 = .ok ⟨200, b3⟩)
    (p1 : parse_companies_from_html b1 ≠ [])
    (p2 : parse_companies_from_html b2 ≠ [])
    (p3 : parse_companies_from_html b3 = []) :
    scrape_companies fetch none fuel =
      some (.ok (parse_companies_from_html b1 ++ parse_companies_from_html b2),
        3) := by
  obtain ⟨k, rfl⟩ : ∃ k, fuel = k + 3 := ⟨fuel - 3, by omega⟩
  show scrape_loop fetch none (k + 2 + 1) 1 [] 0 = _
  rw [scrape_loop, h1]
  simp only [List.isEmpty_eq_true, p1, reduceIte, List.nil_append]
  show scrape_loop fetch none (k + 1 + 1) 2 _ 1 = _
  rw [scrape_loop, h2]
  simp only [List.isEmpty_eq_true, p2, reduceIte]
  show scrape_loop fetch none (k + 0 + 1) 3 _ 2 = _
  rw [scrape_loop, h3]
  simp [p3]

/-- Witness for C4 at a concrete page oracle whose first two pages contain
one parseable row each. -/
theorem scrape_three_pages_witness :
    scrape_companies
      (fun n =>
        if n = 1 ∨ n = 2 then
          .ok ⟨200,
            [⟨[⟨[⟨some ("cmDetail(".toList ++ quoteChar :: "12".toList ++
                    quoteChar :: ',' :: quoteChar :: "34".toList ++
                    [quoteChar, ')']), [['A']]⟩]⟩,
               ⟨[⟨none, [['S']]⟩]⟩]⟩]⟩
        else .ok ⟨200, []⟩)
      none 3 =
    some (.ok [⟨"12".toList, "34".toList, ['A'], ['S']⟩,
               ⟨"12".toList, "34".toList, ['A'], ['S']⟩], 3) := by
  have h := scrape_three_pages
    (fun n =>
      if n = 1 ∨ n = 2 then
        .ok ⟨200,
          [⟨[⟨[⟨some ("cmDetail(".toList ++ quoteChar :: "12".toList ++
                  quoteChar :: ',' :: quoteChar :: "34".toList ++
                  [quoteChar, ')']), [['A']]⟩]⟩,
             ⟨[⟨none, [['S']]⟩]⟩]⟩]⟩
      else .ok ⟨200, []⟩)
    3 _ _ [] (by omega) rfl rfl rfl (by decide) (by decide) (by decide)
  rw [h]
  rfl

/-- C5 counterexample: a transport failure from the client is *not* caught
by `scrape_companies` (there is no `try` around `client.get`): with a client
whose first fetch raises, the scrape run ends in the propagated exception
instead of returning the accumulated (empty) company list. -/
theorem scrape_transport_error_cex :
    scrape_companies (fun _ => .error .transport) none 5 =
      some (.error .transport, 1) := rfl

theorem scrape_loop_good_prefix (fetch : Nat → Except ReqErr Page)
    (pages : Nat → List RowHtml) :
    ∀ (n start f : Nat) (acc : List Company) (cnt : Nat),
      (∀ i, i < n → fetch (start + i) = .ok ⟨200, pages (start + i)⟩ ∧
        parse_companies_from_html (pages (start + i)) ≠ []) →
      scrape_loop fetch none (f + n) start acc cnt =
        scrape_loop fetch none f (start + n)
          (acc ++ ((List.range n).map
            (fun i => parse_companies_from_html (pages (start + i)))).flatten)
          (cnt + n) := by
  intro n
  induction n with
  | zero => intro start f acc cnt _; simp
  | succ n ih =>
    intro start f acc cnt h
    have h0 := h 0 (by omega)
    simp only [Nat.add_zero] at h0
    show scrape_loop fetch none (f + n + 1) start acc cnt = _
    rw [scrape_loop, h0.1]
    simp only [List.isEmpty_eq_true, h0.2, reduceIte, ne_eq]
    rw [ih (start + 1) f (acc ++ parse_companies_from_html (pages start))
      (cnt + 1)
      (fun i hi => by
        have hh := h (i + 1) (by omega)
        rwa [show start + (i + 1) = start + 1 + i by omega] at hh)]
    have hlist :
        acc ++ parse_companies_from_html (pages start) ++
          ((List.range n).map
            (fun i => parse_companies_from_html (pages (start + 1 + i)))).flatten =
        acc ++ ((List.range (n + 1)).map
          (fun i => parse_companies_from_html (pages (start + i)))).flatten := by
      have hmap : (List.range n).map
          (fun i => parse_companies_from_html (pages (start + 1 + i))) =
          (List.range n).map
            ((fun i => parse_companies_from_html (pages (start + i))) ∘
              Nat.succ) := by
        apply List.map_congr_left
        intro i _
        simp only [Function.comp]
        rw [show start + 1 + i = start + Nat.succ i by omega]
      rw [List.range_succ_eq_map, List.map_cons, List.map_map,
        List.flatten_cons, List.append_assoc, hmap, Nat.add_zero]
    rw [hlist, show start + 1 + n = start + (n + 1) by omega,
      show cnt + 1 + n = cnt + (n + 1) by omega]
    simp

/-- C5 (amended): when the first `n` pages return status 200 with parseable
rows, a *non-200 status* on page `n + 1` ends pagination early and
`scrape_companies` returns the accumulated rows of pages `1..n` (with
`n + 1` fetches performed); but a *transport failure* (a client exception)
on page `n + 1` propagates out of `scrape_companies` instead of returning
the accumulated rows. -/
theorem scrape_fetch_failure_handling (fetch : Nat → Except ReqErr Page)
    (pages : Nat → List RowHtml) (n f : Nat)
    (hgood : ∀ i, i < n → fetch (1 + i) = .ok ⟨200, pages (1 + i)⟩ ∧
      parse_companies_from_html (pages (1 + i)) ≠ []) :
    (∀ resp, fetch (1 + n) = .ok resp → resp.status ≠ 200 →
      scrape_companies fetch none (f + n + 1) =
        some (.ok (((List.range n).map
          (fun i => parse_companies_from_html (pages (1 + i)))).flatten),
          n + 1)) ∧
    (∀ e, fetch (1 + n) = .error e →
      scrape_companies fetch none (f + n + 1) =
        some (.error e, n + 1)) := by
  have key := scrape_loop_good_prefix fetch pages n 1 (f + 1) [] 0 hgood
  constructor
  · intro resp hresp hstatus
    unfold scrape_companies
    rw [show f + n + 1 = f + 1 + n by omega, key, scrape_loop, hresp]
    simp [hstatus, Nat.add_comm]
  · intro e he
    unfold scrape_companies
    rw [show f + n + 1 = f + 1 + n by omega, key, scrape_loop, he]
    simp [Nat.add_comm]

/-- Witness for the amended C5: one good page, then a 404 ends pagination
with the page-1 rows returned after 2 fetches. -/
theorem scrape_fetch_failure_handling_witness :
    scrape_companies
      (fun n =>
        if n = 1 then
          .ok ⟨200,
            [⟨[⟨[⟨some ("cmDetail(".toList ++ quoteChar :: "12".toList ++
                    quoteChar :: ',' :: quoteChar :: "34".toList ++
                    [quoteChar, ')']), [['A']]⟩]⟩,
               ⟨[⟨none, [['S']]⟩]⟩]⟩]⟩
        else .ok ⟨404, []⟩)
      none 3 =
    some (.ok [⟨"12".toList, "34".toList, ['A'], ['S']⟩], 2) := by
  have h := (scrape_fetch_failure_handling
    (fun n =>
      if n = 1 then
        .ok ⟨200,
          [⟨[⟨[⟨some ("cmDetail(".toList ++ quoteChar :: "12".toList ++
                  quoteChar :: ',' :: quoteChar :: "34".toList ++
                  [quoteChar, ')']), [['A']]⟩]⟩,
             ⟨[⟨none, [['S']]⟩]⟩]⟩]⟩
      else .ok ⟨404, []⟩)
    (fun _ =>
      [⟨[⟨[⟨some ("cmDetail(".toList ++ quoteChar :: "12".toList ++
              quoteChar :: ',' :: quoteChar :: "34".toList ++
              [quoteChar, ')']), [['A']]⟩]⟩,
         ⟨[⟨none, [['S']]⟩]⟩]⟩])
    1 1
    (fun i hi => by
      interval_cases i
      exact ⟨rfl, by decide⟩)).1 ⟨404, []⟩ rfl (by decide)
  rw [h]
  rfl

/-- C6 (amended): a table row yields a `Company` exactly when it has at
least two data cells, each of the two cells contains a link that is truthy
as a tag (it has at least one child node), and the name link's inline
`onclick` attribute contains a `cmDetail('<digits>','<digits>')` match; the
produced record carries the two captured groups and the stripped link
texts.  The symbol link's *text* is not required to be non-empty: a link
with children whose text strips to empty yields a `Company` with an empty
`stock_symbol`. -/
theorem parse_row_characterization (row : RowHtml) (c : Company) :
    rowToCompany row = some c ↔
    ∃ td0 td1 rest na sa,
      row.tds = td0 :: td1 :: rest ∧
      td0.anchors.head? = some na ∧ td1.anchors.head? = some sa ∧
      na.childTexts ≠ [] ∧ sa.childTexts ≠ [] ∧
      ∃ cid sid,
        searchCmDetail (na.onclick.getD []) = some (cid, sid) ∧
        c = ⟨cid, sid, anchorText na, anchorText sa⟩ := by
  constructor
  · intro h
    unfold rowToCompany at h
    split at h
    · rename_i td0 td1 tail htds
      split at h
      · rename_i na sa hna hsa
        split at h
        · cases h
        · rename_i hcond
          push_neg at hcond
          split at h
          · cases h
          · rename_i cid sid hs
            cases h
            exact ⟨td0, td1, tail, na, sa, htds, hna, hsa,
              by simpa [tagTruthy] using hcond.1,
              by simpa [tagTruthy] using hcond.2,
              cid, sid, hs, rfl⟩
      · cases h
    · cases h
  · rintro ⟨td0, td1, rest, na, sa, hr, hna, hsa, hne1, hne2, cid, sid, hs,
      rfl⟩
    have h1 : tagTruthy na = true := by
      simp [tagTruthy, List.isEmpty_eq_true, hne1]
    have h2 : tagTruthy sa = true := by
      simp [tagTruthy, List.isEmpty_eq_true, hne2]
    unfold rowToCompany
    rw [hr]
    simp [hna, hsa, hs, h1, h2]

/-- C6 counterexample: a row whose symbol-cell link has whitespace-only
text (hence empty text after stripping) is *not* skipped — BeautifulSoup
tag truthiness only checks for child nodes — so a `Company` with an empty
`stock_symbol` is produced, where the claim requires the row to yield no
`Company`. -/
theorem parse_row_empty_symbol_text_cex :
    parse_companies_from_html
      [⟨[⟨[⟨some ("cmDetail(".toList ++ quoteChar :: "123".toList ++
              quoteChar :: ',' :: quoteChar :: "456".toList ++
              [quoteChar, ')']), ["Acme".toList]⟩]⟩,
         ⟨[⟨none, [[' ']]⟩]⟩]⟩] =
    [⟨"123".toList, "456".toList, "Acme".toList, []⟩] := by decide

/-- C9 counterexample: a data row whose `Symbol` field is *present but
empty* does not win over the filename-derived symbol — `row.get("Symbol")
or symbol` treats the empty string as falsy — so the filename-derived
symbol is emitted instead of the row's own (empty) value. -/
theorem combine_empty_symbol_cex :
    lookupField [("Symbol", ([] : List Char))] "Symbol" = some [] ∧
    (combine_output_row [("Symbol", ([] : List Char))] "BDO".toList
        "Banco".toList).head? = some "BDO".toList ∧
    some "BDO".toList ≠ some ([] : List Char) := by decide

/-- C9 (amended): in each combined output row, the row's own `Symbol` field
is emitted only when it is present *and non-empty*; when the field is
absent — or present but equal to the empty string — the filename-derived
symbol is used as the fallback. -/
theorem combine_symbol_precedence (row : Item) (symbol company s : List Char) :
    (lookupField row "Symbol" = some s → s ≠ [] →
      (combine_output_row row symbol company).head? = some s) ∧
    (lookupField row "Symbol" = none →
      (combine_output_row row symbol company).head? = some symbol) ∧
    (lookupField row "Symbol" = some [] →
      (combine_output_row row symbol company).head? = some symbol) := by
  refine ⟨fun h hne => ?_, fun h => ?_, fun h => ?_⟩ <;>
    simp [combine_output_row, h]
  intro he
  exact absurd he hne

/-- Witness for the amended C9 at concrete rows. -/
theorem combine_symbol_precedence_witness :
    (combine_output_row [("Symbol", "ALI".toList)] "BDO".toList
        "Banco".toList).head? = some "ALI".toList ∧
    (combine_output_row [] "BDO".toList "Banco".toList).head? =
      some "BDO".toList ∧
    (combine_output_row [("Symbol", ([] : List Char))] "BDO".toList
        "Banco".toList).head? = some "BDO".toList :=
  ⟨(combine_symbol_precedence [("Symbol", "ALI".toList)] "BDO".toList
      "Banco".toList "ALI".toList).1 (by decide) (by decide),
   (combine_symbol_precedence [] "BDO".toList "Banco".toList []).2.1
     (by decide),
   (combine_symbol_precedence [("Symbol", ([] : List Char))] "BDO".toList
      "Banco".toList []).2.2 (by decide)⟩

theorem digitsVal_pad4 (y : Nat) (h : y ≤ 9999) :
    digitsVal (pad4 y) = some y := by
  have h1 : y / 1000 % 10 < 10 := Nat.mod_lt _ (by norm_num)
  have h2 : y / 100 % 10 < 10 := Nat.mod_lt _ (by norm_num)
  have h3 : y / 10 % 10 < 10 := Nat.mod_lt _ (by norm_num)
  have h4 : y % 10 < 10 := Nat.mod_lt _ (by norm_num)
  simp only [digitsVal, pad4, List.foldl_cons, List.foldl_nil,
    charVal_digitChar h1, charVal_digitChar h2, charVal_digitChar h3,
    charVal_digitChar h4]
  congr 1
  omega

theorem digitsVal_pad2 (n : Nat) (h : n ≤ 99) :
    digitsVal (pad2 n) = some n := by
  have h1 : n / 10 % 10 < 10 := Nat.mod_lt _ (by norm_num)
  have h2 : n % 10 < 10 := Nat.mod_lt _ (by norm_num)
  simp only [digitsVal, pad2, List.foldl_cons, List.foldl_nil,
    charVal_digitChar h1, charVal_digitChar h2]
  congr 1
  omega

theorem pad4_no_dash (y : Nat) : ∀ c ∈ pad4 y, c ≠ '-' := by
  intro c hc
  simp only [pad4, List.mem_cons, List.not_mem_nil, or_false] at hc
  rcases hc with h | h | h | h <;> subst h <;> exact digitChar_ne_dash _

theorem pad2_no_dash (n : Nat) : ∀ c ∈ pad2 n, c ≠ '-' := by
  intro c hc
  simp only [pad2, List.mem_cons, List.not_mem_nil, or_false] at hc
  rcases hc with h | h <;> subst h <;> exact digitChar_ne_dash _

theorem isoformat_no_space (d : PyDate) :
    ∀ c ∈ isoformat d, pyIsSpace c = false := by
  intro c hc
  simp only [isoformat, pad4, pad2, List.mem_append, List.mem_cons,
    List.not_mem_nil, or_false] at hc
  rcases hc with (h | h | h | h) | h | (h | h) | h | (h | h) <;> subst h <;>
    first
    | exact digitChar_not_space _
    | decide

theorem splitSep_no_sep (sep : Char) (l : List Char)
    (h : ∀ c ∈ l, c ≠ sep) : splitSep sep l = [l] := by
  induction l with
  | nil => rfl
  | cons c cs ih =>
    simp only [splitSep]
    rw [if_neg (h c (List.mem_cons_self c cs)),
      ih (fun x hx => h x (List.mem_cons_of_mem c hx))]

theorem splitSep_append (sep : Char) (l₁ l₂ : List Char)
    (h : ∀ c ∈ l₁, c ≠ sep) :
    splitSep sep (l₁ ++ sep :: l₂) = l₁ :: splitSep sep l₂ := by
  induction l₁ with
  | nil => simp [splitSep]
  | cons c cs ih =>
    have hc : ¬(c = sep) := h c (List.mem_cons_self c cs)
    have ih' := ih (fun x hx => h x (List.mem_cons_of_mem c hx))
    simp only [List.cons_append, splitSep, List.append_eq, hc, if_false, ih']

theorem daysInMonth_le_31 (y m : Nat) : daysInMonth y m ≤ 31 := by
  unfold daysInMonth
  split <;> split <;> norm_num

theorem numField4_pad4 (y : Nat) (h2 : y ≤ 9999) :
    numField4 (pad4 y) = some y := by
  unfold numField4
  rw [if_pos (by simp [pad4])]
  exact digitsVal_pad4 y h2

theorem numField2_pad2 (lo hi n : Nat) (h : n ≤ 99) (hlo : lo ≤ n)
    (hhi : n ≤ hi) : numField2 lo hi (pad2 n) = some n := by
  unfold numField2
  rw [if_pos (by simp [pad2])]
  simp only [digitsVal_pad2 n h]
  rw [if_pos ⟨hlo, hhi⟩]

theorem dayField_pad2 (n : Nat) (h : n ≤ 99) (hlo : 1 ≤ n) (hhi : n ≤ 31) :
    dayField (pad2 n) = some n := by
  unfold dayField
  rw [if_neg]
  · exact numField2_pad2 1 31 n h hlo hhi
  · intro hcon
    have hd : digitChar (n / 10 % 10) = ' ' := by
      simpa [pad2] using hcon
    have hsp := digitChar_not_space (n / 10 % 10)
    rw [hd] at hsp
    exact absurd hsp (by decide)

theorem strptime_Ymd_isoformat (d : PyDate) (h : d.valid = true) :
    strptime_Ymd (isoformat d) = some d := by
  unfold PyDate.valid at h
  simp only [Bool.and_eq_true, decide_eq_true_eq] at h
  obtain ⟨⟨⟨⟨⟨hy1, hy2⟩, hm1⟩, hm2⟩, hd1⟩, hd2⟩ := h
  simp only [strptime_Ymd, isoformat,
    splitSep_append '-' (pad4 d.year) _ (pad4_no_dash d.year),
    splitSep_append '-' (pad2 d.month) _ (pad2_no_dash d.month),
    splitSep_no_sep '-' (pad2 d.day) (pad2_no_dash d.day),
    numField4_pad4 d.year hy2,
    numField2_pad2 1 12 d.month (by omega) hm1 hm2,
    dayField_pad2 d.day
      (le_trans (le_trans hd2 (daysInMonth_le_31 d.year d.month))
        (by norm_num))
      hd1 (le_trans hd2 (daysInMonth_le_31 d.year d.month))]
  rw [if_pos ⟨hy1, hd2⟩]

/-- C7 (amended): the ISO string `"2024-01-02"` and the calendar date
`(2024, 1, 2)` both normalize to `"01-02-2024"` (as do the space-padded-day
spellings `"2024-01- 2"` and `"01- 2-2024"`, which the `%d` directive
accepts), and for every valid date the ISO-string and date-object
representations normalize identically (deterministically); a string parsing
under neither accepted format is returned *stripped of surrounding
whitespace* — verbatim exactly when it has no leading or trailing
whitespace. -/
theorem ensure_payload_date_normalization :
    (ensure_payload_date (.str "2024-01-02".toList) = "01-02-2024".toList ∧
     ensure_payload_date (.date ⟨2024, 1, 2⟩) = "01-02-2024".toList ∧
     ensure_payload_date (.str "2024-01- 2".toList) = "01-02-2024".toList ∧
     ensure_payload_date (.str "01- 2-2024".toList) = "01-02-2024".toList) ∧
    (∀ d : PyDate, d.valid = true →
      ensure_payload_date (.str (isoformat d)) =
        ensure_payload_date (.date d)) ∧
    (∀ s : List Char, strptime_Ymd (pyStrip s) = none →
      strptime_mdY (pyStrip s) = none →
      ensure_payload_date (.str s) = pyStrip s) := by
  refine ⟨⟨by decide, by decide, by decide, by decide⟩, fun d hv => ?_,
    fun s h1 h2 => ?_⟩
  · simp only [ensure_payload_date,
      pyStrip_eq_self _ (isoformat_no_space d), strptime_Ymd_isoformat d hv]
  · simp only [ensure_payload_date, h1, h2]

/-- Witness for the amended C7 at a concrete date and a concrete
unparseable string. -/
theorem ensure_payload_date_normalization_witness :
    ensure_payload_date (.str (isoformat ⟨2024, 1, 2⟩)) =
      ensure_payload_date (.date ⟨2024, 1, 2⟩) ∧
    ensure_payload_date (.str "abc".toList) = pyStrip "abc".toList :=
  ⟨ensure_payload_date_normalization.2.1 ⟨2024, 1, 2⟩ (by decide),
   ensure_payload_date_normalization.2.2 "abc".toList (by decide)
     (by decide)⟩

/-- C7 counterexample: the unparseable string `" x "` is *not* passed
through verbatim — `ensure_payload_date` strips surrounding whitespace
before (and instead of) returning it. -/
theorem ensure_payload_date_strip_cex :
    ensure_payload_date (.str [' ', 'x', ' ']) = ['x'] ∧
    (['x'] : List Char) ≠ [' ', 'x', ' '] := by decide

/-- C8 counterexample: a 141-character name whose sanitized form is cut by
the 140-character truncation to end in `_` is not a fixed point of
`sanitize_filename` — the second application strips the trailing `_` — so
sanitization is not idempotent for strings longer than the truncation
bound.  (The input contains no `&`, so the abstract entity substitution is
never invoked and `fun l => l` is faithful.) -/
theorem sanitize_truncation_cex :
    sanitize_filename (fun l => l)
        (sanitize_filename (fun l => l)
          ((List.replicate 70 ['a', '_']).flatten ++ ['a'])) ≠
      sanitize_filename (fun l => l)
        ((List.replicate 70 ['a', '_']).flatten ++ ['a']) := by decide

theorem mem_collapseAux (p : Char → Bool) (r : Char) :
    ∀ (b : Bool) (l : List Char) (c : Char), c ∈ collapseAux p r b l →
      c = r ∨ (c ∈ l ∧ p c = false) := by
  intro b l
  induction l generalizing b with
  | nil => intro c hc; cases hc
  | cons a as ih =>
    intro c hc
    simp only [collapseAux] at hc
    by_cases hp : p a = true
    · rw [if_pos hp] at hc
      cases b with
      | true =>
        simp only [if_pos rfl] at hc
        rcases ih true c hc with h | ⟨h1, h2⟩
        · exact Or.inl h
        · exact Or.inr ⟨List.mem_cons_of_mem a h1, h2⟩
      | false =>
        simp only [Bool.false_eq_true, if_false] at hc
        rcases List.mem_cons.mp hc with h | h
        · exact Or.inl h
        · rcases ih true c h with h' | ⟨h1, h2⟩
          · exact Or.inl h'
          · exact Or.inr ⟨List.mem_cons_of_mem a h1, h2⟩
    · rw [if_neg hp] at hc
      rcases List.mem_cons.mp hc with h | h
      · subst h
        exact Or.inr ⟨List.mem_cons_self c as, Bool.not_eq_true _ ▸
          Bool.of_not_eq_true hp⟩
      · rcases ih false c h with h' | ⟨h1, h2⟩
        · exact Or.inl h'
        · exact Or.inr ⟨List.mem_cons_of_mem a h1, h2⟩

theorem collapseAux_no_sat (p : Char → Bool) (r : Char) (b : Bool)
    (l : List Char) (h : ∀ c ∈ l, p c = false) :
    collapseAux p r b l = l := by
  induction l generalizing b with
  | nil => rfl
  | cons a as ih =>
    simp only [collapseAux]
    rw [if_neg (by rw [h a (List.mem_cons_self a as)]; simp)]
    rw [ih false (fun c hc => h c (List.mem_cons_of_mem a hc))]

theorem collapseAux_true_head (p : Char → Bool) (r : Char) :
    ∀ (l : List Char) (c : Char),
      (collapseAux p r true l).head? = some c → p c = false := by
  intro l
  induction l with
  | nil => intro c hc; cases hc
  | cons a as ih =>
    intro c hc
    simp only [collapseAux] at hc
    by_cases hp : p a = true
    · simp only [hp, if_true, reduceIte] at hc
      exact ih c hc
    · rw [if_neg hp] at hc
      cases hc
      exact Bool.of_not_eq_true hp

theorem noDblP_collapseAux (p : Char → Bool) (r : Char) :
    ∀ (b : Bool) (l : List Char), noDblP p (collapseAux p r b l) = true := by
  intro b l
  induction l generalizing b with
  | nil => rfl
  | cons a as ih =>
    simp only [collapseAux]
    by_cases hp : p a = true
    · rw [if_pos hp]
      cases b with
      | true => simpa using ih true
      | false =>
        simp only [Bool.false_eq_true, if_false]
        rcases hl : collapseAux p r true as with _ | ⟨x, xs⟩
        · rfl
        · have hx : p x = false := collapseAux_true_head p r as x (by
            rw [hl]; rfl)
          have hnd := ih true
          rw [hl] at hnd
          simp [noDblP, hx, hnd]
    · rw [if_neg hp]
      have hpa : p a = false := Bool.of_not_eq_true hp
      rcases hl : collapseAux p r false as with _ | ⟨x, xs⟩
      · rfl
      · have hnd := ih false
        rw [hl] at hnd
        simp [noDblP, hpa, hnd]

theorem noDblP_tail (p : Char → Bool) (a : Char) (l : List Char)
    (h : noDblP p (a :: l) = true) : noDblP p l = true := by
  cases l with
  | nil => rfl
  | cons b t =>
    simp only [noDblP, Bool.and_eq_true] at h
    exact h.2

theorem noDblP_append_left (p : Char → Bool) :
    ∀ (l t : List Char), noDblP p (l ++ t) = true → noDblP p l = true := by
  intro l
  induction l with
  | nil => intro t _; rfl
  | cons a as ih =>
    intro t h
    cases as with
    | nil => rfl
    | cons b bs =>
      simp only [List.cons_append, noDblP, Bool.and_eq_true] at h ⊢
      refine ⟨h.1, ?_⟩
      have := ih t (by simpa using h.2)
      simpa using this

theorem noDblP_append_right (p : Char → Bool) :
    ∀ (t l : List Char), noDblP p (t ++ l) = true → noDblP p l = true := by
  intro t
  induction t with
  | nil => intro l h; exact h
  | cons a ts ih =>
    intro l h
    exact ih l (noDblP_tail p a (ts ++ l) h)

theorem collapseAux_fix (p : Char → Bool) (r : Char)
    (hpr : ∀ c, p c = true → c = r) :
    ∀ l : List Char, noDblP p l = true →
      collapseAux p r false l = l ∧
      (∀ c, l.head? = some c → p c = false →
        collapseAux p r true l = l) := by
  intro l
  induction l with
  | nil => intro _; exact ⟨rfl, fun c hc => by cases hc⟩
  | cons a as ih =>
    intro hnd
    have hnd' : noDblP p as = true := noDblP_tail p a as hnd
    constructor
    · simp only [collapseAux]
      by_cases hp : p a = true
      · have har : a = r := hpr a hp
        rw [if_pos hp]
        simp only [Bool.false_eq_true, if_false]
        cases as with
        | nil => rw [← har]; rfl
        | cons b t =>
          have hpb : p b = false := by
            simp only [noDblP, Bool.and_eq_true] at hnd
            have h1 := hnd.1
            rw [hp] at h1
            simpa using h1
          rw [(ih hnd').2 b rfl hpb, ← har]
      · rw [if_neg hp, (ih hnd').1]
    · intro c hc hpc
      cases hc
      simp only [collapseAux]
      rw [if_neg (by rw [hpc]; simp), (ih hnd').1]

theorem trimRight_append (set : List Char) :
    ∀ l : List Char, ∃ t, trimRight set l ++ t = l := by
  intro l
  induction l with
  | nil => exact ⟨[], rfl⟩
  | cons c cs ih =>
    simp only [trimRight]
    rcases h : trimRight set cs with _ | ⟨x, xs⟩
    · by_cases hc : c ∈ set
      · rw [if_pos hc]
        exact ⟨c :: cs, rfl⟩
      · rw [if_neg hc]
        exact ⟨cs, rfl⟩
    · obtain ⟨t, ht⟩ := ih
      rw [h] at ht
      exact ⟨t, by simp [List.cons_append, ht]⟩

theorem mem_trimRight (set : List Char) (l : List Char) (c : Char)
    (h : c ∈ trimRight set l) : c ∈ l := by
  obtain ⟨t, ht⟩ := trimRight_append set l
  rw [← ht]
  exact List.mem_append_left t h

theorem trimRight_getLast (set : List Char) :
    ∀ (l : List Char) (c : Char),
      (trimRight set l).getLast? = some c → c ∉ set := by
  intro l
  induction l with
  | nil => intro c hc; cases hc
  | cons a as ih =>
    intro c hc
    simp only [trimRight] at hc
    rcases h : trimRight set as with _ | ⟨x, xs⟩
    · rw [h] at hc
      by_cases ha : a ∈ set
      · rw [if_pos ha] at hc
        cases hc
      · rw [if_neg ha] at hc
        simp only [List.getLast?_singleton, Option.some.injEq] at hc
        rw [← hc]
        exact ha
    · rw [h] at hc
      rw [List.getLast?_cons_cons] at hc
      rw [← h] at hc
      exact ih c hc

theorem trimRight_head (set : List Char) :
    ∀ (l : List Char) (c : Char),
      (trimRight set l).head? = some c → l.head? = some c := by
  intro l
  cases l with
  | nil => intro c hc; cases hc
  | cons a as =>
    intro c hc
    simp only [trimRight] at hc
    rcases h : trimRight set as with _ | ⟨x, xs⟩
    · rw [h] at hc
      by_cases ha : a ∈ set
      · rw [if_pos ha] at hc
        cases hc
      · rw [if_neg ha] at hc
        simpa using hc
    · rw [h] at hc
      simpa using hc

theorem trimRight_fix (set : List Char) :
    ∀ l : List Char,
      (∀ c, l.getLast? = some c → c ∉ set) →
      trimRight set l = l := by
  intro l
  induction l with
  | nil => intro _; rfl
  | cons a as ih =>
    intro h
    cases as with
    | nil =>
      have ha := h a (by simp)
      simp [trimRight, ha]
    | cons b bs =>
      have hbs : trimRight set (b :: bs) = b :: bs := by
        apply ih
        intro c hc
        apply h
        rw [List.getLast?_cons_cons]
        exact hc
      rw [trimRight, hbs]

theorem dropWhile_append_exists (q : Char → Bool) (l : List Char) :
    ∃ t, t ++ l.dropWhile q = l := by
  induction l with
  | nil => exact ⟨[], rfl⟩
  | cons a as ih =>
    rw [List.dropWhile_cons]
    by_cases hq : q a = true
    · rw [if_pos hq]
      obtain ⟨t, ht⟩ := ih
      exact ⟨a :: t, by simp [ht]⟩
    · rw [if_neg hq]
      exact ⟨[], rfl⟩

theorem dropWhile_head (q : Char → Bool) :
    ∀ (l : List Char) (c : Char),
      (l.dropWhile q).head? = some c → q c = false := by
  intro l
  induction l with
  | nil => intro c hc; cases hc
  | cons a as ih =>
    intro c
    rw [List.dropWhile_cons]
    by_cases hq : q a = true
    · rw [if_pos hq]
      exact ih c
    · rw [if_neg hq]
      intro hc
      cases hc
      exact Bool.of_not_eq_true hq

theorem mem_stripChars (set l : List Char) (c : Char)
    (h : c ∈ stripChars set l) : c ∈ l := by
  unfold stripChars at h
  have h1 := mem_trimRight set _ c h
  obtain ⟨t, ht⟩ := dropWhile_append_exists (fun c => decide (c ∈ set)) l
  rw [← ht]
  exact List.mem_append_right t h1

theorem stripChars_head (set l : List Char) (c : Char)
    (h : (stripChars set l).head? = some c) : c ∉ set := by
  unfold stripChars at h
  have h1 := trimRight_head set _ c h
  have h2 := dropWhile_head (fun c => decide (c ∈ set)) l c h1
  simpa using h2

theorem stripChars_noDbl (p : Char → Bool) (set l : List Char)
    (h : noDblP p l = true) : noDblP p (stripChars set l) = true := by
  unfold stripChars
  obtain ⟨t1, ht1⟩ := dropWhile_append_exists (fun c => decide (c ∈ set)) l
  have h1 : noDblP p (l.dropWhile (fun c => decide (c ∈ set))) = true := by
    apply noDblP_append_right p t1
    rw [ht1]
    exact h
  obtain ⟨t2, ht2⟩ :=
    trimRight_append set (l.dropWhile (fun c => decide (c ∈ set)))
  apply noDblP_append_left p _ t2
  rw [ht2]
  exact h1

theorem stripChars_fix (set l : List Char)
    (hhead : ∀ c, l.head? = some c → c ∉ set)
    (hlast : ∀ c, l.getLast? = some c → c ∉ set) :
    stripChars set l = l := by
  unfold stripChars
  have hdw : l.dropWhile (fun c => decide (c ∈ set)) = l := by
    cases l with
    | nil => rfl
    | cons a as =>
      have ha : a ∉ set := hhead a rfl
      rw [List.dropWhile_cons, if_neg (by simpa using ha)]
  rw [hdw]
  exact trimRight_fix set l hlast

theorem map_eq_self_of (f : Char → Char) (l : List Char)
    (h : ∀ c ∈ l, f c = c) : l.map f = l := by
  rw [List.map_congr_left h]
  simp

theorem replaceAmp_eq_self : ∀ l : List Char,
    (∀ c ∈ l, c ≠ '&') → replaceAmp l = l := by
  intro l
  induction l with
  | nil => intro _; rfl
  | cons a as ih =>
    intro h
    have h' := ih (fun c hc => h c (List.mem_cons_of_mem a hc))
    unfold replaceAmp at h' ⊢
    rw [List.flatMap_cons, if_neg (h a (List.mem_cons_self a as)), h']
    rfl

theorem mem_replaceAmp : ∀ (l : List Char) (c : Char), c ∈ replaceAmp l →
    c = 'a' ∨ c = 'n' ∨ c = 'd' ∨ (c ∈ l ∧ c ≠ '&') := by
  intro l
  induction l with
  | nil => intro c hc; cases hc
  | cons x xs ih =>
    intro c hc
    unfold replaceAmp at hc
    rw [List.flatMap_cons] at hc
    rcases List.mem_append.mp hc with h1 | h1
    · by_cases hx : x = '&'
      · rw [if_pos hx] at h1
        simp only [List.mem_cons, List.not_mem_nil, or_false] at h1
        rcases h1 with h | h | h
        · exact Or.inl h
        · exact Or.inr (Or.inl h)
        · exact Or.inr (Or.inr (Or.inl h))
      · rw [if_neg hx] at h1
        have hcx : c = x := by simpa using h1
        subst hcx
        exact Or.inr (Or.inr (Or.inr ⟨List.mem_cons_self c xs, hx⟩))
    · rcases ih c h1 with h | h | h | ⟨hm, hne⟩
      · exact Or.inl h
      · exact Or.inr (Or.inl h)
      · exact Or.inr (Or.inr (Or.inl h))
      · exact Or.inr (Or.inr (Or.inr ⟨List.mem_cons_of_mem x hm, hne⟩))

theorem contains_eq_false_of_not_mem : ∀ (l : List Char) (a : Char),
    (∀ c ∈ l, c ≠ a) → l.contains a = false := by
  intro l
  induction l with
  | nil => intro a _; rfl
  | cons x xs ih =>
    intro a h
    have hx : (a == x) = false := by
      have hxa := h x (List.mem_cons_self x xs)
      simpa using (Ne.symm hxa)
    rw [List.contains_cons, hx, Bool.false_or]
    exact ih a (fun c hc => h c (List.mem_cons_of_mem x hc))

theorem cleanedName_props (f : List Char → List Char) (s : List Char) :
    (∀ c ∈ cleanedName f s,
      pyIsSpace c = false ∧ forbiddenChar c = false ∧ c ≠ '&') ∧
    noDblP (fun c => c = '_') (cleanedName f s) = true ∧
    (∀ c, (cleanedName f s).head? = some c → c ∉ stripSet) := by
  have e1 : cleanedName f s =
      stripChars stripSet
        (collapseAux (fun c => c = '_') '_' false
          (spacesToUnderscore
            (collapseAux pyIsSpace ' ' false
              (replaceForbidden
                (replaceAmp (pyStrip (html_unescape f s))))))) := rfl
  rw [e1]
  refine ⟨fun c hc => ?_, ?_, fun c hc => ?_⟩
  · have h6 := mem_stripChars _ _ _ hc
    rcases mem_collapseAux _ '_' false _ c h6 with h | ⟨h5, hnu⟩
    · subst h
      exact ⟨by decide, by decide, by decide⟩
    · rcases List.mem_map.mp h5 with ⟨d, hd4, hde⟩
      by_cases hds : d = ' '
      · rw [if_pos hds] at hde
        subst hde
        exact ⟨by decide, by decide, by decide⟩
      · rw [if_neg hds] at hde
        subst hde
        rcases mem_collapseAux pyIsSpace ' ' false _ d hd4 with h' | ⟨h3, hnsp⟩
        · exact absurd h' hds
        · rcases List.mem_map.mp h3 with ⟨e, he2, hee⟩
          by_cases hef : forbiddenChar e = true
          · rw [if_pos hef] at hee
            subst hee
            exact ⟨hnsp, by decide, by decide⟩
          · rw [if_neg hef] at hee
            subst hee
            rcases mem_replaceAmp _ _ he2 with h | h | h | ⟨_, hne⟩
            · subst h
              exact ⟨hnsp, by decide, by decide⟩
            · subst h
              exact ⟨hnsp, by decide, by decide⟩
            · subst h
              exact ⟨hnsp, by decide, by decide⟩
            · exact ⟨hnsp, Bool.of_not_eq_true hef, hne⟩
  · apply stripChars_noDbl
    exact noDblP_collapseAux _ '_' false _
  · exact stripChars_head _ _ _ hc

theorem sanitize_fix (f : List Char → List Char) (t : List Char)
    (hns : ∀ c ∈ t, pyIsSpace c = false)
    (hnf : ∀ c ∈ t, forbiddenChar c = false)
    (hna : ∀ c ∈ t, c ≠ '&')
    (hdbl : noDblP (fun c => c = '_') t = true)
    (hhead : ∀ c, t.head? = some c → c ∉ stripSet)
    (hlast : ∀ c, t.getLast? = some c → c ∉ stripSet)
    (hne : t ≠ []) (hlen : t.length ≤ 140) :
    sanitize_filename f t = t := by
  have h0 : html_unescape f t = t := by
    unfold html_unescape
    rw [if_neg (by rw [contains_eq_false_of_not_mem t '&' hna]; simp)]
  have h1 : pyStrip t = t := pyStrip_eq_self t hns
  have h2 : replaceAmp t = t := replaceAmp_eq_self t hna
  have h3 : replaceForbidden t = t := by
    unfold replaceForbidden
    apply map_eq_self_of
    intro c hc
    rw [if_neg (by simp [hnf c hc])]
  have h4 : collapseAux pyIsSpace ' ' false t = t :=
    collapseAux_no_sat pyIsSpace ' ' false t hns
  have h5 : spacesToUnderscore t = t := by
    unfold spacesToUnderscore
    apply map_eq_self_of
    intro c hc
    rw [if_neg]
    intro hsp
    have hcs := hns c hc
    rw [hsp] at hcs
    exact absurd hcs (by decide)
  have h6 : collapseAux (fun c => c = '_') '_' false t = t :=
    (collapseAux_fix (fun c => c = '_') '_'
      (fun c hc => by simpa using hc) t hdbl).1
  have h7 : stripChars stripSet t = t := stripChars_fix stripSet t hhead hlast
  unfold sanitize_filename cleanedName collapseRuns
  simp only []
  rw [h0, h1, h2, h3, h4, h5, h6, h7, if_neg hne]
  exact List.take_of_length_le hlen

/-- C8 (amended): `sanitize_filename` is idempotent on every string whose
sanitized result does not end in `.`, `_` or `-` — in particular on every
string whose cleaned form is not cut by the 140-character truncation.  (The
140-truncation runs *after* the `strip("._-")`, so it can leave such a
trailing character, and a second application then removes it; see the
counterexample.) -/
theorem sanitize_filename_idempotent (f : List Char → List Char)
    (s : List Char) (h : stripLastOk (sanitize_filename f s) = true) :
    sanitize_filename f (sanitize_filename f s) = sanitize_filename f s := by
  by_cases hc : cleanedName f s = []
  · have hs : sanitize_filename f s = "unknown".toList := by
      unfold sanitize_filename
      simp only []
      rw [hc, if_pos rfl]
    rw [hs]
    apply sanitize_fix
    · decide
    · decide
    · decide
    · decide
    · intro c hcc
      cases hcc
      decide
    · intro c hcc
      cases hcc
      decide
    · decide
    · decide
  · have hs : sanitize_filename f s = (cleanedName f s).take 140 := by
      unfold sanitize_filename
      simp only []
      rw [if_neg hc]
    obtain ⟨hmem, hdbl, hhead⟩ := cleanedName_props f s
    rw [hs] at h ⊢
    apply sanitize_fix
    · intro c hcc
      exact (hmem c (List.mem_of_mem_take hcc)).1
    · intro c hcc
      exact (hmem c (List.mem_of_mem_take hcc)).2.1
    · intro c hcc
      exact (hmem c (List.mem_of_mem_take hcc)).2.2
    · apply noDblP_append_left _ _ ((cleanedName f s).drop 140)
      rw [List.take_append_drop]
      exact hdbl
    · intro c hcc
      apply hhead
      rw [List.head?_take, if_neg (by norm_num)] at hcc
      exact hcc
    · intro c hcc
      unfold stripLastOk at h
      rw [hcc] at h
      simpa using h
    · intro hcon
      rcases List.take_eq_nil_iff.mp hcon with h' | h'
      · norm_num at h'
      · exact hc h'
    · rw [List.length_take]
      exact min_le_left _ _

/-- Witness for the amended C8 at a concrete name whose sanitized form is
not truncated. -/
theorem sanitize_filename_idempotent_witness :
    sanitize_filename (fun l => l)
        (sanitize_filename (fun l => l) "Hello World".toList) =
      sanitize_filename (fun l => l) "Hello World".toList :=
  sanitize_filename_idempotent (fun l => l) "Hello World".toList (by decide)
